import Mathlib

/-!
Verification of the douyinshare backtesting repository.

The development shallowly embeds the bar-driven simulation loop and the three
strategy classes of the repository (src/strategies/ma_cross_strategy.py,
src/strategies/rsi_strategy.py, src/strategies/ma_box_break_strategy.py,
src/utils/backtest_engine.py, src/config/settings.py) into Lean.

Conventions of the embedding:
- prices and cash are exact rationals;
- a strategy keeps a "history" list of bars with the most recent bar first,
  so that the source's close[0] is the head and close[-1] is the head of the
  tail, mirroring backtrader's negative-index addressing;
- the per-bar callback of each strategy class is translated directly from the
  body of its next() method; the surrounding simulation loop (backtrader's
  Cerebro, which is a library external to the repository) is modelled from
  the spec, section 4.5.
-/

namespace Douyinshare

/-- Bar: one OHLCV observation (spec section 3). Field names abbreviate
open/high/low/close/volume; open is shortened because it is a Lean keyword. -/
structure Bar where
  op : ℚ
  hi : ℚ
  lo : ℚ
  cl : ℚ
  vol : ℚ
deriving Repr, DecidableEq

/-- Order intent emitted by a strategy on one bar: buy(size) and sell(size)
translate self.buy(size=...) / self.sell(), closeAll translates self.close()
which closes the full position. -/
inductive Intent where
  | buy (size : ℤ)
  | sell (size : ℤ)
  | closeAll
deriving Repr, DecidableEq

/-- Log events printed by the strategies; decision logging is a side channel
of next(). buyLog records the printed size, insufficientFunds is the
print of the Chinese insufficient-funds message in MABOXBreakStrategy.next,
signalLog stands for the buy/sell signal logs of the two simple strategies. -/
inductive LogEv where
  | buyLog (size : ℤ)
  | insufficientFunds
  | signalLog
deriving Repr, DecidableEq

/-- Simple moving average over window w of a most-recent-first value list;
none while fewer than w values have been observed (spec section 4.2). -/
def smaList (w : ℕ) (xs : List ℚ) : Option ℚ :=
  if 1 ≤ w ∧ w ≤ xs.length then some ((xs.take w).sum / (w : ℚ)) else none

/-- Rolling highest value over window w (bt.indicators.Highest). -/
def highestList (w : ℕ) (xs : List ℚ) : Option ℚ :=
  if 1 ≤ w ∧ w ≤ xs.length then (xs.take w).max? else none

/-- Rolling lowest value over window w (bt.indicators.Lowest). -/
def lowestList (w : ℕ) (xs : List ℚ) : Option ℚ :=
  if 1 ≤ w ∧ w ≤ xs.length then (xs.take w).min? else none

/-- Bar-to-bar deltas of a chronological (oldest-first) close list:
element i is close(i+1) - close(i). -/
def deltasChron (cs : List ℚ) : List ℚ :=
  List.zipWith (fun a b => a - b) cs.tail cs

/-- Wilder smoothed average over period w of a chronological value list:
seeded with the arithmetic mean of the first w values, then
a := (a * (w - 1) + x) / w for each further value x. -/
def wilderAvg (w : ℕ) (xs : List ℚ) : ℚ :=
  (xs.drop w).foldl (fun a x => (a * ((w : ℚ) - 1) + x) / (w : ℚ))
    ((xs.take w).sum / (w : ℚ))

/-- Modelled from the spec (section 4.2): the RSI indicator used by
RSIStrategy is bt.indicators.RSI from the backtrader library, which is not
part of this repository. Per the spec it is Wilder's smoothing of average
gains vs. average losses over the last w bar-to-bar close deltas, undefined
until w + 1 bars are observed, and equal to 100 at exactly zero average
loss. Input here is the chronological (oldest-first) close list. -/
def rsiChron (w : ℕ) (cs : List ℚ) : Option ℚ :=
  if 1 ≤ w ∧ w + 1 ≤ cs.length then
    let ds := deltasChron cs
    let g := wilderAvg w (ds.map (fun d => max d 0))
    let l := wilderAvg w (ds.map (fun d => max (-d) 0))
    some (if l = 0 then 100 else 100 - 100 / (1 + g / l))
  else none

/-- RSI on a most-recent-first bar history. -/
def rsiOfHist (w : ℕ) (hist : List Bar) : Option ℚ :=
  rsiChron w ((hist.map Bar.cl).reverse)

/-- Modelled from the spec (section 4.2): the crossover signal used by
MACrossStrategy is bt.indicators.CrossOver from the backtrader library,
which is not part of this repository. Per the spec it emits +1 on the bar
where A transitions from at-most-B to above-B, -1 on the reverse
transition, 0 otherwise, and is neutral unless both series are ready.
Inputs are the SMA windows and the most-recent-first close list. -/
def crossoverSig (wa wb : ℕ) (closes : List ℚ) : ℤ :=
  match smaList wa closes, smaList wb closes,
        smaList wa closes.tail, smaList wb closes.tail with
  | some a0, some b0, some a1, some b1 =>
      if a1 ≤ b1 ∧ a0 > b0 then 1
      else if b1 ≤ a1 ∧ a0 < b0 then -1
      else 0
  | _, _, _, _ => 0

/-- Error kind for construction-time failures; the spec names InvalidParameter
but nothing in the repository defines or raises it. -/
inductive StrategyError where
  | invalidParameter
deriving Repr, DecidableEq

/-- Parameters of RSIStrategy (src/strategies/rsi_strategy.py, params tuple). -/
structure RSIParams where
  rsi_period : ℕ
  oversold : ℚ
  overbought : ℚ
deriving Repr, DecidableEq

/-- Mutable attributes of RSIStrategy set in __init__: the pending-order slot
self.order (true means non-None) and the two bookkeeping attributes. -/
structure RSIState where
  order : Bool
  buyprice : Option ℚ
  buycomm : Option ℚ
deriving Repr, DecidableEq

/-- RSIStrategy.__init__: builds the RSI indicator and initializes
self.order = None, self.buyprice = None, self.buycomm = None. The body
performs no parameter validation and cannot fail; Except models Python's
ability to raise during construction. -/
def RSIStrategy.init? (_p : RSIParams) : Except StrategyError RSIState :=
  .ok ⟨false, none, none⟩

/-- RSIStrategy.next: return immediately while an order is pending; when flat
buy on rsi < oversold, when holding sell on rsi > overbought (strict
inequalities). The strategy is not invoked before the RSI indicator is ready
(backtrader calls prenext instead of next), hence the none branch. The
default backtrader sizer trades one share per order. -/
def RSIStrategy.next (p : RSIParams) (_cash : ℚ) (pos : Bool) (s : RSIState)
    (hist : List Bar) : RSIState × List Intent × List LogEv :=
  if s.order then (s, [], [])
  else
    match rsiOfHist p.rsi_period hist with
    | none => (s, [], [])
    | some r =>
      if !pos then
        if r < p.oversold then ({ s with order := true }, [.buy 1], [.signalLog])
        else (s, [], [])
      else
        if r > p.overbought then ({ s with order := true }, [.sell 1], [.signalLog])
        else (s, [], [])

/-- RSIStrategy.notify_order on a terminal order status: logs and clears the
pending-order slot (self.order = None). -/
def RSIStrategy.notify_order (s : RSIState) : RSIState :=
  { s with order := false }

/-- Parameters of MACrossStrategy (src/strategies/ma_cross_strategy.py). -/
structure MACrossParams where
  fast_period : ℕ
  slow_period : ℕ
deriving Repr, DecidableEq

/-- Mutable attributes of MACrossStrategy set in __init__. -/
structure MACrossState where
  order : Bool
  buyprice : Option ℚ
  buycomm : Option ℚ
deriving Repr, DecidableEq

/-- MACrossStrategy.__init__. -/
def MACrossStrategy.init? (_p : MACrossParams) : Except StrategyError MACrossState :=
  .ok ⟨false, none, none⟩

/-- MACrossStrategy.next: return while an order is pending; when flat buy on
crossover > 0, when holding sell on crossover < 0. -/
def MACrossStrategy.next (p : MACrossParams) (_cash : ℚ) (pos : Bool)
    (s : MACrossState) (hist : List Bar) : MACrossState × List Intent × List LogEv :=
  if s.order then (s, [], [])
  else
    let sig := crossoverSig p.fast_period p.slow_period (hist.map Bar.cl)
    if !pos then
      if sig > 0 then ({ s with order := true }, [.buy 1], [.signalLog])
      else (s, [], [])
    else
      if sig < 0 then ({ s with order := true }, [.sell 1], [.signalLog])
      else (s, [], [])

/-- MACrossStrategy.notify_order on a terminal status. -/
def MACrossStrategy.notify_order (s : MACrossState) : MACrossState :=
  { s with order := false }

/-- Parameters of MABOXBreakStrategy (src/strategies/ma_box_break_strategy.py):
moving-average windows, box lookback and stake (minimum trading unit). -/
structure MABoxParams where
  ma_fast : ℕ
  ma_mid : ℕ
  ma_slow : ℕ
  box_period : ℕ
  stake : ℕ
deriving Repr, DecidableEq

/-- Mutable attributes of MABOXBreakStrategy. box_high_val and box_low_val are
created on the first entry signal in the source; they default to 0 here and
are only read while a position is held, which the strategy reaches only
after an entry has recorded them. -/
structure MABoxState where
  boxHighVal : ℚ
  boxLowVal : ℚ
  inBox : Bool
  buySignalBar : Option ℕ
  buyprice : Option ℚ
deriving Repr, DecidableEq

/-- MABOXBreakStrategy.__init__: builds indicators and sets buyprice = None,
in_box = False, buy_signal_bar = None; no validation, cannot fail. -/
def MABOXBreakStrategy.init? (_p : MABoxParams) : Except StrategyError MABoxState :=
  .ok ⟨0, 0, false, none, none⟩

/-- Readiness bound of MABOXBreakStrategy: backtrader first calls next() once
every indicator has produced a value; ma60_slope = ma60 - ma60(-1) needs
ma_slow + 1 bars, the others need their own window. -/
def MABOXBreakStrategy.ready (p : MABoxParams) (hist : List Bar) : Bool :=
  max (max p.ma_fast p.ma_mid) (max (p.ma_slow + 1) p.box_period) ≤ hist.length

/-- MABOXBreakStrategy.next, translated clause by clause. When flat: buy when
close[-1] <= ma60[-1], close[0] > ma60[0] and the ma60 slope is positive,
recording the box from the Highest/Lowest indicators and sizing the order
as int(cash*0.95 // price // stake) * stake; a non-positive size prints the
insufficient-funds message instead. When holding: a close outside the
recorded box clears in_box; then a dead cross (ma5 < ma10) while not in_box
closes the whole position, else the elif re-checks the breakout. -/
def MABOXBreakStrategy.next (p : MABoxParams) (cash : ℚ) (pos : Bool)
    (s : MABoxState) (hist : List Bar) : MABoxState × List Intent × List LogEv :=
  if !(MABOXBreakStrategy.ready p hist) then (s, [], [])
  else
    let closes := hist.map Bar.cl
    let price := closes.headD 0
    if !pos then
      let prevClose := closes.tail.headD 0
      let ma60_0 := (smaList p.ma_slow closes).getD 0
      let ma60_1 := (smaList p.ma_slow closes.tail).getD 0
      if prevClose ≤ ma60_1 ∧ price > ma60_0 ∧ ma60_0 - ma60_1 > 0 then
        let bh := (highestList p.box_period (hist.map Bar.hi)).getD 0
        let bl := (lowestList p.box_period (hist.map Bar.lo)).getD 0
        let size : ℤ := ⌊(⌊cash * (19 / 20) / price⌋ : ℚ) / (p.stake : ℚ)⌋ * (p.stake : ℤ)
        let s1 := { s with boxHighVal := bh, boxLowVal := bl,
                           buySignalBar := some hist.length }
        if size > 0 then
          ({ s1 with buyprice := some price, inBox := true },
           [.buy size], [.buyLog size])
        else (s1, [], [.insufficientFunds])
      else (s, [], [])
    else
      let s1 := if price < s.boxLowVal ∨ price > s.boxHighVal then
                  { s with inBox := false } else s
      let ma5 := (smaList p.ma_fast closes).getD 0
      let ma10 := (smaList p.ma_mid closes).getD 0
      if !s1.inBox ∧ ma5 < ma10 then
        ({ s1 with buyprice := none, inBox := false, buySignalBar := none },
         [.closeAll], [])
      else if s1.buySignalBar.isSome then
        if price > s.boxHighVal ∨ price < s.boxLowVal then
          ({ s1 with inBox := false }, [], [])
        else (s1, [], [])
      else (s1, [], [])

/-- MABOXBreakStrategy.notify_order only prints the order status. -/
def MABOXBreakStrategy.notify_order (s : MABoxState) : MABoxState := s

/-- Default initial cash from src/config/settings.py. -/
def DEFAULT_CASH : ℚ := 1000000

/-- Default commission rate from src/config/settings.py. -/
def DEFAULT_COMMISSION : ℚ := 1 / 1000

/-- Default slippage rate from src/config/settings.py. -/
def DEFAULT_SLIPPAGE : ℚ := 1 / 1000

/-- Capability interface of a strategy for the simulation loop (spec section
4.4): its initial private state, the notify hook applied when a submitted
order reaches a terminal state, and the per-bar decision callback taking
broker cash, a holding flag, the private state and the bar history. -/
structure Strategy (σ : Type) where
  init : σ
  notify : σ → σ
  next : ℚ → Bool → σ → List Bar → σ × List Intent × List LogEv

/-- Strategy value for MACrossStrategy. -/
def maCrossStrategy (p : MACrossParams) : Strategy MACrossState :=
  ⟨⟨false, none, none⟩, MACrossStrategy.notify_order, MACrossStrategy.next p⟩

/-- Strategy value for RSIStrategy. -/
def rsiStrategy (p : RSIParams) : Strategy RSIState :=
  ⟨⟨false, none, none⟩, RSIStrategy.notify_order, RSIStrategy.next p⟩

/-- Strategy value for MABOXBreakStrategy. -/
def maBoxStrategy (p : MABoxParams) : Strategy MABoxState :=
  ⟨⟨0, 0, false, none, none⟩, MABOXBreakStrategy.notify_order, MABOXBreakStrategy.next p⟩

/-- Engine configuration: initial cash plus the commission and slippage rates
installed on the broker by BacktestEngine.run_backtest. -/
structure EngCfg where
  cash : ℚ
  commission : ℚ
  slippage : ℚ
deriving Repr, DecidableEq

/-- Engine configuration as BacktestEngine builds it, with the default
commission and slippage from settings.py. -/
def engineCfg (cash : ℚ) : EngCfg :=
  ⟨cash, DEFAULT_COMMISSION, DEFAULT_SLIPPAGE⟩

/-- Closed round-trip trade record (spec section 3). -/
structure Trade where
  entry : ℚ
  exitPrice : ℚ
  size : ℤ
  pnl : ℚ
deriving Repr, DecidableEq

/-- Broker-and-loop state threaded through the simulation: cash, position
size, average entry cost, strategy private state, orders submitted on the
previous bar and still pending, most-recent-first bar history, bar index. -/
structure EngSt (σ : Type) where
  cash : ℚ
  pos : ℤ
  avg : ℚ
  sst : σ
  pending : List Intent
  hist : List Bar
  t : ℕ

/-- Accumulated observable output of a run: intents tagged with their bar
index, the equity curve, closed trades and tagged log events. -/
structure SimResult where
  intents : List (ℕ × Intent)
  equity : List ℚ
  trades : List Trade
  logs : List (ℕ × LogEv)
  finalCash : ℚ
deriving Repr, DecidableEq

/-- Modelled from the spec (sections 4.3 and 4.5): execution of one pending
intent against the advancing bar by the broker (backtrader's broker is a
library external to the repository). Buys pay slippage on the bar's open
and are rejected when the total cost exceeds cash; sells receive less and
are rejected when the requested size exceeds the position; close resolves
to the full position; commission is deducted immediately; a fill that
returns the position to zero finalizes a Trade. -/
def fillOne (cfg : EngCfg) (b : Bar) :
    (ℚ × ℤ × ℚ × List Trade) → Intent → (ℚ × ℤ × ℚ × List Trade)
  | (cash, pos, avg, trades), .buy n =>
      let fp := b.op * (1 + cfg.slippage)
      let cost := fp * n * (1 + cfg.commission)
      if 0 < n ∧ cost ≤ cash then (cash - cost, pos + n, fp, trades)
      else (cash, pos, avg, trades)
  | (cash, pos, avg, trades), .sell n =>
      let fp := b.op * (1 - cfg.slippage)
      if 0 < n ∧ n ≤ pos then
        let proceeds := fp * n - fp * n * cfg.commission
        let trades1 := if pos - n = 0 then
          trades ++ [⟨avg, fp, n, (fp - avg) * n⟩] else trades
        (cash + proceeds, pos - n, avg, trades1)
      else (cash, pos, avg, trades)
  | (cash, pos, avg, trades), .closeAll =>
      let fp := b.op * (1 - cfg.slippage)
      if 0 < pos then
        let proceeds := fp * pos - fp * pos * cfg.commission
        (cash + proceeds, 0, avg, trades ++ [⟨avg, fp, pos, (fp - avg) * pos⟩])
      else (cash, pos, avg, trades)

/-- Modelled from the spec (section 4.5): one full bar step of the simulation
loop. Pending orders are executed against the new bar (fills are applied at
the bar open, then the strategy's notify hook runs), the strategy observes
the extended history, and an equity point cash + position * close is
recorded. -/
def engineStep {σ : Type} (cfg : EngCfg) (S : Strategy σ) (e : EngSt σ)
    (b : Bar) : EngSt σ × (List (ℕ × Intent) × ℚ × List Trade × List (ℕ × LogEv)) :=
  let filled := e.pending.foldl (fillOne cfg b) (e.cash, e.pos, e.avg, [])
  let cash1 := filled.1
  let pos1 := filled.2.1
  let avg1 := filled.2.2.1
  let newTrades := filled.2.2.2
  let sst1 := if e.pending.isEmpty then e.sst else S.notify e.sst
  let hist1 := b :: e.hist
  let stepOut := S.next cash1 (pos1 ≠ 0) sst1 hist1
  let equityPt := cash1 + (pos1 : ℚ) * b.cl
  (⟨cash1, pos1, avg1, stepOut.1, stepOut.2.1, hist1, e.t + 1⟩,
   (stepOut.2.1.map (fun i => (e.t, i)), equityPt, newTrades,
    stepOut.2.2.map (fun l => (e.t, l))))

/-- Modelled from the spec (section 4.5): the simulation loop over the
remaining bars, accumulating the observable outputs; exactly one equity
point is recorded per processed bar. -/
def simLoop {σ : Type} (cfg : EngCfg) (S : Strategy σ) (e : EngSt σ) :
    List Bar → SimResult
  | [] => ⟨[], [], [], [], e.cash⟩
  | b :: rest =>
      let step := engineStep cfg S e b
      let r := simLoop cfg S step.1 rest
      ⟨step.2.1 ++ r.intents, step.2.2.1 :: r.equity,
       step.2.2.2.1 ++ r.trades, step.2.2.2.2 ++ r.logs, r.finalCash⟩

/-- Modelled from the spec (section 4.5): a whole simulation from the initial
broker state. -/
def simulate {σ : Type} (cfg : EngCfg) (S : Strategy σ) (bars : List Bar) :
    SimResult :=
  simLoop cfg S ⟨cfg.cash, 0, 0, S.init, [], [], 0⟩ bars

/-- BacktestEngine.run_backtest (src/utils/backtest_engine.py): on an empty
bar series it prints a warning and returns the empty dict before any engine
is built, modelled as none; otherwise it configures the broker and runs the
full simulation. -/
def BacktestEngine.run_backtest {σ : Type} (cfg : EngCfg) (S : Strategy σ)
    (bars : List Bar) : Option SimResult :=
  if bars.isEmpty then none else some (simulate cfg S bars)

/-- Helper mirroring Python list-of-bars construction from a close series in
the spec's test scenarios: every price field equals the close. -/
def mkBar (c : ℚ) : Bar := ⟨c, c, c, c, 0⟩

/-- Bars built from a chronological close list. -/
def mkBars (cs : List ℚ) : List Bar := cs.map mkBar

/-- Result of the TradeAnalyzer as read by _collect_results: each field is
the total entry of the corresponding sub-dict, none when the sub-dict or
its total key is missing (backtrader only creates the won/lost sub-dicts
once trades exist). -/
structure TradesAnalysis where
  total : Option ℕ
  won : Option ℕ
  lost : Option ℕ
deriving Repr, DecidableEq

/-- Win-rate expression of BacktestEngine._collect_results, line 113:
trades.get(won).get(total, 0) divided by max(trades.get(total).get(total, 1), 1),
times 100. -/
def collectWinRate (tr : TradesAnalysis) : ℚ :=
  ((tr.won.getD 0 : ℕ) : ℚ) / ((max (tr.total.getD 1) 1 : ℕ) : ℚ) * 100

/-- Total-trades expression of _collect_results, line 110 (default 0). -/
def collectTotalTrades (tr : TradesAnalysis) : ℕ :=
  tr.total.getD 0

/-- Mean of a rational list (0 on the empty list, as Python mean of no data
never arises in the guarded code paths). -/
def qMean (xs : List ℚ) : ℚ := xs.sum / (xs.length : ℚ)

/-- Population variance of a rational list. -/
def qVar (xs : List ℚ) : ℚ :=
  ((xs.map (fun x => (x - qMean xs) ^ 2)).sum) / (xs.length : ℚ)

/-- Modelled from the spec (section 4.6): the SharpeRatio analyzer is
backtrader library code external to the repository. It always stores the
key sharperatio in its analysis dict; the stored value is Python None
exactly when the ratio is undefined (fewer than 2 return observations or
zero variance), otherwise the computed ratio v. The analysis is modelled
as an association list whose values are Option rationals, none standing
for Python None. -/
def sharpeAnalyzerOutput (returns : List ℚ) (v : ℚ) : List (String × Option ℚ) :=
  [("sharperatio", if returns.length < 2 ∨ qVar returns = 0 then none else some v)]

/-- Sharpe field of _collect_results, line 108: analysis.get(sharperatio, 0);
the Python default 0 is only used when the key itself is absent. -/
def collectSharpe (analysis : List (String × Option ℚ)) : Option ℚ :=
  match analysis.lookup "sharperatio" with
  | some v => v
  | none => some 0

/-- BacktestEngine.print_results, line 128: the Sharpe line is printed only
when the stored sharpe_ratio is not None. -/
def printsSharpeLine (sharpe : Option ℚ) : Bool :=
  sharpe.isSome

/-- Size formula exactly as the spec states it: floor of cash times 0.95 over
price over lot size, times lot size. Stated for comparison against the
source's int(cash*0.95 // price // stake) * stake. -/
def specBuySize (cash price : ℚ) (stake : ℕ) : ℤ :=
  ⌊cash * (19 / 20) / price / (stake : ℚ)⌋ * (stake : ℤ)

/-- Entry condition of MABOXBreakStrategy.next on a most-recent-first close
list: previous close at most the previous slow MA, current close above the
current slow MA, slow MA rising. -/
def maboxEntryCond (maSlow : ℕ) (closes : List ℚ) : Prop :=
  closes.tail.headD 0 ≤ (smaList maSlow closes.tail).getD 0 ∧
  closes.headD 0 > (smaList maSlow closes).getD 0 ∧
  (smaList maSlow closes).getD 0 - (smaList maSlow closes.tail).getD 0 > 0

instance (maSlow : ℕ) (closes : List ℚ) : Decidable (maboxEntryCond maSlow closes) := by
  unfold maboxEntryCond
  infer_instance

/-- Close series of the MA-Cross test scenario from the spec, as bars. -/
def scenarioBars : List Bar := mkBars [10, 10, 10, 12, 14, 16, 14, 12, 10, 8]

/-- Bar sequence for the box-breakout scenario: params (fast 2, mid 3,
slow 4, box 2, stake 1). The entry signal fires on bar 4 (close 12 crosses
above a rising 4-bar MA), recording the box [10, 12]; bar 5 closes at 14,
breaking out above the box; bars 6 and 7 close at 10.5, back inside the
box, and on bar 7 the 2-bar MA drops below the 3-bar MA. -/
def barsC1 : List Bar :=
  [mkBar 10, mkBar 10, mkBar 10, mkBar 10, mkBar 12,
   ⟨12, 14, 12, 14, 0⟩, mkBar (21 / 2), mkBar (21 / 2)]

/-- Unfolding equation of simLoop on a cons cell. -/
theorem simLoop_cons {σ : Type} (cfg : EngCfg) (S : Strategy σ) (e : EngSt σ)
    (b : Bar) (rest : List Bar) :
    simLoop cfg S e (b :: rest) =
      ⟨(engineStep cfg S e b).2.1 ++ (simLoop cfg S (engineStep cfg S e b).1 rest).intents,
       (engineStep cfg S e b).2.2.1 :: (simLoop cfg S (engineStep cfg S e b).1 rest).equity,
       (engineStep cfg S e b).2.2.2.1 ++ (simLoop cfg S (engineStep cfg S e b).1 rest).trades,
       (engineStep cfg S e b).2.2.2.2 ++ (simLoop cfg S (engineStep cfg S e b).1 rest).logs,
       (simLoop cfg S (engineStep cfg S e b).1 rest).finalCash⟩ := rfl

/-- The loop records exactly one equity point per processed bar. -/
theorem simLoop_equity_length {σ : Type} (cfg : EngCfg) (S : Strategy σ) :
    ∀ (bars : List Bar) (e : EngSt σ),
      (simLoop cfg S e bars).equity.length = bars.length
  | [], _ => rfl
  | b :: rest, e => by
      rw [simLoop_cons]
      show ((engineStep cfg S e b).2.2.1 ::
        (simLoop cfg S (engineStep cfg S e b).1 rest).equity).length = rest.length + 1
      rw [List.length_cons, simLoop_equity_length cfg S rest]

/-- C4: in the result summary, an undefined Sharpe-like ratio (fewer than 2
return observations or zero variance) is stored as Python None — not 0,
since the analyzer always supplies the sharperatio key and the dict-get
default is bypassed — and print_results omits the Sharpe line for it. -/
theorem sharpe_undefined_reported_absent (returns : List ℚ) (v : ℚ)
    (h : returns.length < 2 ∨ qVar returns = 0) :
    collectSharpe (sharpeAnalyzerOutput returns v) = none ∧
    printsSharpeLine (collectSharpe (sharpeAnalyzerOutput returns v)) = false := by
  have hout : sharpeAnalyzerOutput returns v = [("sharperatio", none)] := by
    unfold sharpeAnalyzerOutput
    rw [if_pos h]
  rw [hout]
  exact ⟨rfl, rfl⟩

/-- Witness for sharpe_undefined_reported_absent at the empty return list. -/
theorem sharpe_undefined_reported_absent_witness :
    collectSharpe (sharpeAnalyzerOutput [] 0) = none ∧
    printsSharpeLine (collectSharpe (sharpeAnalyzerOutput [] 0)) = false :=
  sharpe_undefined_reported_absent [] 0 (Or.inl (by norm_num))

/-- C5: the collected win rate is won/total*100 when at least one trade was
closed, and 0 when no trades exist (the max guard prevents a division by
zero; hwon is the TradeAnalyzer invariant that won trades never exceed
total trades). -/
theorem win_rate_guarded (tr : TradesAnalysis) (n : ℕ) (htot : tr.total = some n)
    (hwon : tr.won.getD 0 ≤ n) :
    (0 < n → collectWinRate tr = ((tr.won.getD 0 : ℕ) : ℚ) / (n : ℚ) * 100) ∧
    (n = 0 → collectWinRate tr = 0) := by
  constructor
  · intro hn
    unfold collectWinRate
    rw [htot]
    have : max ((some n).getD 1) 1 = n := by
      simp [Option.getD]
      omega
    rw [this]
  · intro hn
    subst hn
    have hw0 : tr.won.getD 0 = 0 := Nat.le_zero.mp hwon
    unfold collectWinRate
    rw [htot, hw0]
    norm_num

/-- Witness for win_rate_guarded: 3 of 4 trades won gives 75 percent, and a
zero-trade analysis (won sub-dict absent) gives 0. -/
theorem win_rate_guarded_witness :
    collectWinRate ⟨some 4, some 3, some 1⟩ = ((3 : ℕ) : ℚ) / ((4 : ℕ) : ℚ) * 100 ∧
    collectWinRate ⟨some 0, none, none⟩ = 0 :=
  ⟨(win_rate_guarded ⟨some 4, some 3, some 1⟩ 4 rfl (by norm_num)).1 (by norm_num),
   (win_rate_guarded ⟨some 0, none, none⟩ 0 rfl (by norm_num)).2 rfl⟩

/-- C8: on an empty bar series run_backtest returns the empty result before
any simulation starts, and no bar is processed; on a non-empty series a
full simulation runs and processes every bar (one equity point each). -/
theorem empty_series_no_run {σ : Type} (cfg : EngCfg) (S : Strategy σ) :
    BacktestEngine.run_backtest cfg S [] = none ∧
    ∀ bars : List Bar, bars.isEmpty = false →
      ∃ r, BacktestEngine.run_backtest cfg S bars = some r ∧
        r.equity.length = bars.length := by
  constructor
  · rfl
  · intro bars hne
    refine ⟨simulate cfg S bars, ?_, ?_⟩
    · unfold BacktestEngine.run_backtest
      rw [hne]
      rfl
    · exact simLoop_equity_length cfg S bars _

/-- Witness for empty_series_no_run on a one-bar series. -/
theorem empty_series_no_run_witness :
    BacktestEngine.run_backtest (engineCfg 100) (rsiStrategy ⟨2, 30, 70⟩) [] = none ∧
    ∃ r, BacktestEngine.run_backtest (engineCfg 100) (rsiStrategy ⟨2, 30, 70⟩)
        (mkBars [5]) = some r ∧ r.equity.length = (mkBars [5]).length :=
  ⟨(empty_series_no_run (engineCfg 100) (rsiStrategy ⟨2, 30, 70⟩)).1,
   (empty_series_no_run (engineCfg 100) (rsiStrategy ⟨2, 30, 70⟩)).2 (mkBars [5]) rfl⟩

/-- C9: the whole backtest is a deterministic function of the bar series, the
strategy and the configuration — equal inputs give identical full results,
in particular identical trade lists and equity sequences; no clock or
random source appears anywhere in the embedded simulation. -/
theorem backtest_deterministic {σ : Type} (S T : Strategy σ) (cfg cfg2 : EngCfg)
    (bars bars2 : List Bar) (hS : S = T) (hcfg : cfg = cfg2) (hbars : bars = bars2) :
    BacktestEngine.run_backtest cfg S bars = BacktestEngine.run_backtest cfg2 T bars2 ∧
    (simulate cfg S bars).trades = (simulate cfg2 T bars2).trades ∧
    (simulate cfg S bars).equity = (simulate cfg2 T bars2).equity := by
  subst hS
  subst hcfg
  subst hbars
  exact ⟨rfl, rfl, rfl⟩

/-- Witness for backtest_deterministic on a concrete three-bar run. -/
theorem backtest_deterministic_witness :
    BacktestEngine.run_backtest (engineCfg 100) (rsiStrategy ⟨2, 30, 70⟩) (mkBars [5, 4, 3]) =
      BacktestEngine.run_backtest (engineCfg 100) (rsiStrategy ⟨2, 30, 70⟩) (mkBars [5, 4, 3]) ∧
    (simulate (engineCfg 100) (rsiStrategy ⟨2, 30, 70⟩) (mkBars [5, 4, 3])).trades =
      (simulate (engineCfg 100) (rsiStrategy ⟨2, 30, 70⟩) (mkBars [5, 4, 3])).trades ∧
    (simulate (engineCfg 100) (rsiStrategy ⟨2, 30, 70⟩) (mkBars [5, 4, 3])).equity =
      (simulate (engineCfg 100) (rsiStrategy ⟨2, 30, 70⟩) (mkBars [5, 4, 3])).equity :=
  backtest_deterministic _ _ _ _ _ _ rfl rfl rfl

/-- C10: while the order slot of RSIStrategy is non-empty its next() returns
immediately — no new order, no log, no state change — and in every case at
most one intent is emitted per bar. -/
theorem rsi_pending_order_suppression (p : RSIParams) (cash : ℚ) (pos : Bool)
    (s : RSIState) (hist : List Bar) :
    (s.order = true → RSIStrategy.next p cash pos s hist = (s, [], [])) ∧
    (RSIStrategy.next p cash pos s hist).2.1.length ≤ 1 := by
  constructor
  · intro h
    unfold RSIStrategy.next
    rw [h]
    rfl
  · unfold RSIStrategy.next
    rcases hb : s.order with _ | _
    · rcases rsiOfHist p.rsi_period hist with _ | r
      · simp
      · rcases pos with _ | _ <;> dsimp <;> split <;> simp
    · simp

/-- Witness for rsi_pending_order_suppression with a pending order. -/
theorem rsi_pending_order_suppression_witness :
    RSIStrategy.next ⟨14, 30, 70⟩ 5 false ⟨true, none, none⟩ [] =
      (⟨true, none, none⟩, [], []) ∧
    (RSIStrategy.next ⟨14, 30, 70⟩ 5 false ⟨true, none, none⟩ []).2.1.length ≤ 1 :=
  ⟨(rsi_pending_order_suppression ⟨14, 30, 70⟩ 5 false ⟨true, none, none⟩ []).1 rfl,
   (rsi_pending_order_suppression ⟨14, 30, 70⟩ 5 false ⟨true, none, none⟩ []).2⟩

/-- C3 counterexample: RSIStrategy with oversold 80 ≥ overbought 20 is
constructed without any error — no InvalidParameter is raised — and the
simulation then runs, processing all three bars of a series with that
configuration. -/
theorem no_invalid_parameter_counterexample :
    RSIStrategy.init? ⟨14, 80, 20⟩ = .ok ⟨false, none, none⟩ ∧
    (20 : ℚ) ≤ 80 ∧
    (simulate (engineCfg 1000000) (rsiStrategy ⟨14, 80, 20⟩)
      (mkBars [10, 9, 8])).equity.length = 3 := by
  refine ⟨rfl, by norm_num, ?_⟩
  rw [simulate, simLoop_equity_length]
  rfl

/-- C3 amended: construction of the strategy classes performs no parameter
validation at all — it always succeeds, for any thresholds and periods —
and the simulation loop runs and processes every bar under any such
configuration. -/
theorem construction_never_validates (p : RSIParams) (q : MABoxParams) :
    RSIStrategy.init? p = .ok ⟨false, none, none⟩ ∧
    MABOXBreakStrategy.init? q = .ok ⟨0, 0, false, none, none⟩ ∧
    ∀ (cash : ℚ) (bars : List Bar),
      (simulate (engineCfg cash) (rsiStrategy p) bars).equity.length = bars.length :=
  ⟨rfl, rfl, fun cash bars => simLoop_equity_length (engineCfg cash) (rsiStrategy p) bars _⟩

/-- C1 counterexample: after the close broke out of the recorded band on
bar 5 and re-entered it (close 10.5 inside [10, 12] on bars 6 and 7), the
death cross on bar 7 — with the close still inside the band — DOES emit a
close of the position: in_box is never restored by re-entry, so the in-box
protection the claim expects is absent and the run emits
buy at bar 4 and closeAll at bar 7. -/
theorem box_reentry_counterexample :
    (simulate (engineCfg 10000) (maBoxStrategy ⟨2, 3, 4, 2, 1⟩) barsC1).intents =
      [(4, .buy 791), (7, .closeAll)] ∧
    highestList 2 ((barsC1.take 5).reverse.map Bar.hi) = some 12 ∧
    lowestList 2 ((barsC1.take 5).reverse.map Bar.lo) = some 10 ∧
    (barsC1.map Bar.cl)[5]? = some 14 ∧ (12 : ℚ) < 14 ∧
    (barsC1.map Bar.cl)[6]? = some (21 / 2) ∧
    (barsC1.map Bar.cl)[7]? = some (21 / 2) ∧
    (10 : ℚ) ≤ 21 / 2 ∧ (21 / 2 : ℚ) ≤ 12 ∧
    (smaList 2 ((barsC1.take 8).reverse.map Bar.cl)).getD 0 <
      (smaList 3 ((barsC1.take 8).reverse.map Bar.cl)).getD 0 := by
  decide!

/-- Unfolding of MABOXBreakStrategy.next for a bar while holding a position,
once the indicators are ready. -/
theorem MABOXBreakStrategy.next_holding (p : MABoxParams) (cash : ℚ)
    (s : MABoxState) (hist : List Bar)
    (hready : MABOXBreakStrategy.ready p hist = true) :
    MABOXBreakStrategy.next p cash true s hist =
      (let closes := hist.map Bar.cl
       let price := closes.headD 0
       let s1 := if price < s.boxLowVal ∨ price > s.boxHighVal then
                   { s with inBox := false } else s
       let ma5 := (smaList p.ma_fast closes).getD 0
       let ma10 := (smaList p.ma_mid closes).getD 0
       if (!s1.inBox) = true ∧ ma5 < ma10 then
         ({ s1 with buyprice := none, inBox := false, buySignalBar := none },
          [.closeAll], [])
       else if s1.buySignalBar.isSome then
         if price > s.boxHighVal ∨ price < s.boxLowVal then
           ({ s1 with inBox := false }, [], [])
         else (s1, [], [])
       else (s1, [], [])) := by
  unfold MABOXBreakStrategy.next
  rw [hready]
  rfl

/-- C1 amended: the in-box protection is governed solely by the in_box flag.
While the flag is set and the close is inside the recorded band, a death
cross emits nothing and the state is untouched; once the flag is cleared
(first breakout), a death cross emits a close of the full position on that
bar no matter where the close sits relative to the band; and the flag is
never restored by a later bar, in particular not by re-entering the band. -/
theorem box_protection_amended (p : MABoxParams) (cash : ℚ) (s : MABoxState)
    (hist : List Bar) (hready : MABOXBreakStrategy.ready p hist = true) :
    (s.inBox = true → s.boxLowVal ≤ (hist.map Bar.cl).headD 0 →
      (hist.map Bar.cl).headD 0 ≤ s.boxHighVal →
      MABOXBreakStrategy.next p cash true s hist = (s, [], [])) ∧
    (s.inBox = false →
      (smaList p.ma_fast (hist.map Bar.cl)).getD 0 <
        (smaList p.ma_mid (hist.map Bar.cl)).getD 0 →
      (MABOXBreakStrategy.next p cash true s hist).2.1 = [.closeAll]) ∧
    (s.inBox = false →
      (MABOXBreakStrategy.next p cash true s hist).1.inBox = false) := by
  rw [MABOXBreakStrategy.next_holding p cash s hist hready]
  dsimp only
  refine ⟨?_, ?_, ?_⟩
  · intro hin hlo hhi
    have h1 : ¬((hist.map Bar.cl).headD 0 < s.boxLowVal ∨
        (hist.map Bar.cl).headD 0 > s.boxHighVal) := by
      push_neg
      exact ⟨hlo, hhi⟩
    rw [if_neg h1, hin]
    simp only [Bool.not_true, Bool.false_eq_true, false_and, if_false]
    split
    · rw [if_neg (by push_neg; exact ⟨hhi, hlo⟩)]
    · rfl
  · intro hout hcross
    split
    · rw [if_pos ⟨rfl, hcross⟩]
    · rw [if_pos ⟨by rw [hout]; rfl, hcross⟩]
  · intro hout
    split
    · split
      · rfl
      · split
        · split
          · rfl
          · rfl
        · rfl
    · split
      · rfl
      · split
        · split
          · rfl
          · exact hout
        · exact hout

/-- Witness for box_protection_amended: with box [9, 12], price 10 inside the
band and a falling MA pair, the protected state emits nothing while the
broken state emits a full close. -/
theorem box_protection_amended_witness :
    MABOXBreakStrategy.next ⟨2, 3, 4, 2, 1⟩ 100 true ⟨12, 9, true, some 1, some 10⟩
      ((mkBars [14, 13, 12, 11, 10]).reverse) =
      (⟨12, 9, true, some 1, some 10⟩, [], []) ∧
    (MABOXBreakStrategy.next ⟨2, 3, 4, 2, 1⟩ 100 true ⟨12, 9, false, some 1, some 10⟩
      ((mkBars [14, 13, 12, 11, 10]).reverse)).2.1 = [.closeAll] :=
  ⟨(box_protection_amended ⟨2, 3, 4, 2, 1⟩ 100 ⟨12, 9, true, some 1, some 10⟩
      ((mkBars [14, 13, 12, 11, 10]).reverse) (by decide)).1 rfl (by decide!) (by decide!),
   (box_protection_amended ⟨2, 3, 4, 2, 1⟩ 100 ⟨12, 9, false, some 1, some 10⟩
      ((mkBars [14, 13, 12, 11, 10]).reverse) (by decide)).2.1 rfl (by decide!)⟩

/-- Dividing by a positive natural commutes with taking floors: flooring the
inner quotient first does not change the final floor. -/
theorem floor_floor_div_nat (x : ℚ) (n : ℕ) (hn : 1 ≤ n) :
    ⌊(⌊x⌋ : ℚ) / (n : ℚ)⌋ = ⌊x / (n : ℚ)⌋ := by
  have hn0 : (0 : ℚ) < (n : ℚ) := by exact_mod_cast hn
  apply le_antisymm
  · apply Int.floor_le_floor
    apply div_le_div_of_nonneg_right (Int.floor_le x) hn0.le
  · rw [Int.le_floor, le_div_iff₀ hn0]
    have h1 : ((⌊x / (n : ℚ)⌋ : ℚ)) * (n : ℚ) ≤ x := by
      rw [← le_div_iff₀ hn0]
      exact Int.floor_le _
    have h2 : ((⌊x / (n : ℚ)⌋ * (n : ℤ) : ℤ) : ℚ) ≤ x := by
      push_cast
      exact h1
    have h3 : (⌊x / (n : ℚ)⌋ * (n : ℤ) : ℤ) ≤ ⌊x⌋ := Int.le_floor.mpr h2
    calc ((⌊x / (n : ℚ)⌋ : ℤ) : ℚ) * (n : ℚ) = ((⌊x / (n : ℚ)⌋ * (n : ℤ) : ℤ) : ℚ) := by
          push_cast
          ring
      _ ≤ ((⌊x⌋ : ℤ) : ℚ) := by exact_mod_cast h3

/-- Unfolding of MABOXBreakStrategy.next for a bar while flat, once the
indicators are ready. -/
theorem MABOXBreakStrategy.next_flat (p : MABoxParams) (cash : ℚ)
    (s : MABoxState) (hist : List Bar)
    (hready : MABOXBreakStrategy.ready p hist = true) :
    MABOXBreakStrategy.next p cash false s hist =
      (let closes := hist.map Bar.cl
       let price := closes.headD 0
       if maboxEntryCond p.ma_slow closes then
         let bh := (highestList p.box_period (hist.map Bar.hi)).getD 0
         let bl := (lowestList p.box_period (hist.map Bar.lo)).getD 0
         let size : ℤ := ⌊(⌊cash * (19 / 20) / price⌋ : ℚ) / (p.stake : ℚ)⌋ * (p.stake : ℤ)
         let s1 := { s with boxHighVal := bh, boxLowVal := bl,
                            buySignalBar := some hist.length }
         if size > 0 then
           ({ s1 with buyprice := some price, inBox := true },
            [.buy size], [.buyLog size])
         else (s1, [], [.insufficientFunds])
       else (s, [], [])) := by
  unfold MABOXBreakStrategy.next maboxEntryCond
  rw [hready]
  rfl

/-- C2: while flat and ready, MABOXBreakStrategy emits a buy exactly on the
entry condition (previous close at most the previous slow MA, close above
the current slow MA, slow MA rising) with positive size; the buy size is
the spec's floor(cash*0.95/price/lot)*lot, the box bounds recorded in the
state are the rolling highest-high/lowest-low over box_period bars, and
when the size resolves to 0 the strategy logs insufficient funds and
emits no order (hence stays flat). -/
theorem mabox_entry_exact (p : MABoxParams) (cash : ℚ) (s : MABoxState)
    (hist : List Bar) (hready : MABOXBreakStrategy.ready p hist = true)
    (hstake : 1 ≤ p.stake) (hcash : 0 ≤ cash)
    (hprice : 0 < (hist.map Bar.cl).headD 0) :
    0 ≤ specBuySize cash ((hist.map Bar.cl).headD 0) p.stake ∧
    (maboxEntryCond p.ma_slow (hist.map Bar.cl) →
      0 < specBuySize cash ((hist.map Bar.cl).headD 0) p.stake →
      MABOXBreakStrategy.next p cash false s hist =
        ({ s with
            boxHighVal := (highestList p.box_period (hist.map Bar.hi)).getD 0,
            boxLowVal := (lowestList p.box_period (hist.map Bar.lo)).getD 0,
            buySignalBar := some hist.length,
            buyprice := some ((hist.map Bar.cl).headD 0),
            inBox := true },
         [.buy (specBuySize cash ((hist.map Bar.cl).headD 0) p.stake)],
         [.buyLog (specBuySize cash ((hist.map Bar.cl).headD 0) p.stake)])) ∧
    (¬ maboxEntryCond p.ma_slow (hist.map Bar.cl) →
      MABOXBreakStrategy.next p cash false s hist = (s, [], [])) ∧
    (maboxEntryCond p.ma_slow (hist.map Bar.cl) →
      specBuySize cash ((hist.map Bar.cl).headD 0) p.stake = 0 →
      MABOXBreakStrategy.next p cash false s hist =
        ({ s with
            boxHighVal := (highestList p.box_period (hist.map Bar.hi)).getD 0,
            boxLowVal := (lowestList p.box_period (hist.map Bar.lo)).getD 0,
            buySignalBar := some hist.length },
         [], [.insufficientFunds])) := by
  have hsize : ⌊(⌊cash * (19 / 20) / ((hist.map Bar.cl).headD 0)⌋ : ℚ) / (p.stake : ℚ)⌋ *
      (p.stake : ℤ) = specBuySize cash ((hist.map Bar.cl).headD 0) p.stake := by
    unfold specBuySize
    rw [floor_floor_div_nat _ _ hstake]
  have hnonneg : 0 ≤ specBuySize cash ((hist.map Bar.cl).headD 0) p.stake := by
    unfold specBuySize
    apply mul_nonneg
    · apply Int.floor_nonneg.mpr
      apply div_nonneg
      · apply div_nonneg
        · apply mul_nonneg hcash
          norm_num
        · exact le_of_lt hprice
      · exact_mod_cast Nat.zero_le p.stake
    · exact_mod_cast Nat.zero_le p.stake
  rw [MABOXBreakStrategy.next_flat p cash s hist hready]
  dsimp only
  refine ⟨hnonneg, ?_, ?_, ?_⟩
  · intro hentry hpos
    rw [if_pos hentry, hsize, if_pos hpos]
  · intro hentry
    rw [if_neg hentry]
  · intro hentry hzero
    rw [if_pos hentry, hsize, hzero]
    rfl

/-- Witness for mabox_entry_exact: on the entry bar of the box scenario with
lot size 100, cash 10000 buys 700 shares recording the box [10, 12], while
cash 100 resolves to size 0 and logs insufficient funds. -/
theorem mabox_entry_exact_witness :
    (0 : ℤ) < specBuySize 10000 12 100 ∧
    MABOXBreakStrategy.next ⟨2, 3, 4, 2, 100⟩ 10000 false ⟨0, 0, false, none, none⟩
      ((mkBars [10, 10, 10, 10, 12]).reverse) =
      (⟨12, 10, true, some 5, some 12⟩, [.buy 700], [.buyLog 700]) ∧
    MABOXBreakStrategy.next ⟨2, 3, 4, 2, 100⟩ 100 false ⟨0, 0, false, none, none⟩
      ((mkBars [10, 10, 10, 10, 12]).reverse) =
      (⟨12, 10, false, some 5, none⟩, [], [.insufficientFunds]) := by
  have h1 := (mabox_entry_exact ⟨2, 3, 4, 2, 100⟩ 10000 ⟨0, 0, false, none, none⟩
      ((mkBars [10, 10, 10, 10, 12]).reverse) (by decide) (by decide)
      (by norm_num) (by decide!)).2.1 (by decide!) (by decide!)
  have h2 := (mabox_entry_exact ⟨2, 3, 4, 2, 100⟩ 100 ⟨0, 0, false, none, none⟩
      ((mkBars [10, 10, 10, 10, 12]).reverse) (by decide) (by decide)
      (by norm_num) (by decide!)).2.2.2 (by decide!) (by decide!)
  refine ⟨by decide!, ?_, ?_⟩
  · rw [h1]
    decide!
  · rw [h2]
    decide!

/-- C6 counterexample: in the spec scenario (closes 10,10,10,12,14,16,14,12,
10,8 with fast 2 and slow 4) bar 3 is the first bar on which the 2-period
MA (11) exceeds the 4-period MA (10.5) — the 4-period MA is not even
defined one bar earlier — yet the run emits no intent at all: the fast MA
is already above the slow MA on the first bar both are defined, so no
upward crossover transition ever fires and no buy is emitted on bar 3 or
any other bar. -/
theorem ma_cross_scenario_counterexample :
    smaList 2 ((scenarioBars.take 4).reverse.map Bar.cl) = some 11 ∧
    smaList 4 ((scenarioBars.take 4).reverse.map Bar.cl) = some (21 / 2) ∧
    (21 / 2 : ℚ) < 11 ∧
    smaList 4 ((scenarioBars.take 3).reverse.map Bar.cl) = none ∧
    (simulate (engineCfg 1000000) (maCrossStrategy ⟨2, 4⟩) scenarioBars).intents = [] := by
  decide!

/-- C6 amended: the two-state machine behaves as claimed — when flat with no
pending order a buy is emitted exactly on crossover +1, when long exactly a
sell on crossover -1, and at most one intent is emitted per bar — but on
the spec's concrete scenario no crossover transition exists, so no buy
(and hence no sell) is ever emitted. -/
theorem ma_cross_state_machine (p : MACrossParams) (cash : ℚ)
    (s : MACrossState) (hist : List Bar) (hord : s.order = false) :
    ((MACrossStrategy.next p cash false s hist).2.1 = [.buy 1] ↔
        crossoverSig p.fast_period p.slow_period (hist.map Bar.cl) > 0) ∧
    ((MACrossStrategy.next p cash true s hist).2.1 = [.sell 1] ↔
        crossoverSig p.fast_period p.slow_period (hist.map Bar.cl) < 0) ∧
    (∀ pos : Bool, (MACrossStrategy.next p cash pos s hist).2.1.length ≤ 1) ∧
    (simulate (engineCfg 1000000) (maCrossStrategy ⟨2, 4⟩) scenarioBars).intents = [] := by
  have hnext : ∀ pos : Bool, MACrossStrategy.next p cash pos s hist =
      (let sig := crossoverSig p.fast_period p.slow_period (hist.map Bar.cl)
       if !pos then
         (if sig > 0 then ({ s with order := true }, [.buy 1], [.signalLog])
          else (s, [], []))
       else
         (if sig < 0 then ({ s with order := true }, [.sell 1], [.signalLog])
          else (s, [], []))) := by
    intro pos
    unfold MACrossStrategy.next
    rw [hord]
    rfl
  refine ⟨?_, ?_, ?_, by decide!⟩
  · rw [hnext false]
    dsimp only
    by_cases hsig : crossoverSig p.fast_period p.slow_period (hist.map Bar.cl) > 0
    · rw [if_pos hsig]
      simpa using hsig
    · rw [if_neg hsig]
      simp [hsig]
  · rw [hnext true]
    dsimp only
    by_cases hsig : crossoverSig p.fast_period p.slow_period (hist.map Bar.cl) < 0
    · rw [if_pos hsig]
      simpa using hsig
    · rw [if_neg hsig]
      simp [hsig]
  · intro pos
    rw [hnext pos]
    rcases pos with _ | _ <;> dsimp only <;> split_ifs <;> simp

/-- Witness for ma_cross_state_machine: on a history whose fast MA has just
crossed above the slow MA the signal is +1 and the flat strategy buys. -/
theorem ma_cross_state_machine_witness :
    ((MACrossStrategy.next ⟨2, 4⟩ 100 false ⟨false, none, none⟩
        ((mkBars [10, 10, 10, 10, 12]).reverse)).2.1 = [.buy 1] ↔
      crossoverSig 2 4 (((mkBars [10, 10, 10, 10, 12]).reverse).map Bar.cl) > 0) ∧
    crossoverSig 2 4 (((mkBars [10, 10, 10, 10, 12]).reverse).map Bar.cl) = 1 :=
  ⟨(ma_cross_state_machine ⟨2, 4⟩ 100 ⟨false, none, none⟩
      ((mkBars [10, 10, 10, 10, 12]).reverse) rfl).1, by decide!⟩

/-- On a strictly decreasing chronological close list every bar-to-bar delta
is negative. -/
theorem deltasChron_neg : ∀ (cs : List ℚ), cs.Chain' (· > ·) →
    ∀ d ∈ deltasChron cs, d < 0
  | [], _, d, hd => by simp [deltasChron] at hd
  | [_], _, d, hd => by simp [deltasChron] at hd
  | a :: b :: r, hc, d, hd => by
      rw [List.chain'_cons] at hc
      have heq : deltasChron (a :: b :: r) = (b - a) :: deltasChron (b :: r) := rfl
      rw [heq] at hd
      rcases List.mem_cons.mp hd with h | h
      · rw [h]
        linarith [hc.1]
      · exact deltasChron_neg (b :: r) hc.2 d h

/-- The Wilder fold keeps the running average at zero over a zero list. -/
theorem foldl_wilder_zero (w : ℕ) : ∀ (zs : List ℚ), (∀ x ∈ zs, x = 0) →
    zs.foldl (fun a x => (a * ((w : ℚ) - 1) + x) / (w : ℚ)) 0 = 0
  | [], _ => rfl
  | z :: zs, h => by
      have hz : z = 0 := h z (by simp)
      show zs.foldl _ ((0 * ((w : ℚ) - 1) + z) / (w : ℚ)) = 0
      have hstep : (0 * ((w : ℚ) - 1) + z) / (w : ℚ) = 0 := by
        rw [hz]
        simp
      rw [hstep]
      exact foldl_wilder_zero w zs (fun x hx => h x (List.mem_cons_of_mem _ hx))

/-- Wilder smoothing of an all-zero series is zero. -/
theorem wilderAvg_zero (w : ℕ) (xs : List ℚ) (h : ∀ x ∈ xs, x = 0) :
    wilderAvg w xs = 0 := by
  unfold wilderAvg
  have h1 : (xs.take w).sum = 0 :=
    List.sum_eq_zero (fun x hx => h x (List.mem_of_mem_take hx))
  rw [h1, zero_div]
  exact foldl_wilder_zero w (xs.drop w) (fun x hx => h x (List.mem_of_mem_drop hx))

/-- The Wilder fold keeps the running average positive over a positive list. -/
theorem foldl_wilder_pos (w : ℕ) (hw : 1 ≤ w) : ∀ (zs : List ℚ) (a : ℚ), 0 < a →
    (∀ x ∈ zs, 0 < x) →
    0 < zs.foldl (fun a x => (a * ((w : ℚ) - 1) + x) / (w : ℚ)) a
  | [], _, ha, _ => ha
  | z :: zs, a, ha, h => by
      show 0 < zs.foldl _ ((a * ((w : ℚ) - 1) + z) / (w : ℚ))
      apply foldl_wilder_pos w hw zs _ ?_ (fun x hx => h x (List.mem_cons_of_mem _ hx))
      apply div_pos
      · have hz : 0 < z := h z (List.mem_cons_self _ _)
        have hw1 : (0 : ℚ) ≤ (w : ℚ) - 1 := by
          have hcast : (1 : ℚ) ≤ (w : ℚ) := by exact_mod_cast hw
          linarith
        have := mul_nonneg ha.le hw1
        linarith
      · have hcast : (0 : ℚ) < (w : ℚ) := by exact_mod_cast hw
        exact hcast

/-- Wilder smoothing of an all-positive series of length at least w is
positive. -/
theorem wilderAvg_pos (w : ℕ) (hw : 1 ≤ w) (xs : List ℚ)
    (hlen : w ≤ xs.length) (h : ∀ x ∈ xs, 0 < x) : 0 < wilderAvg w xs := by
  unfold wilderAvg
  apply foldl_wilder_pos w hw _ _ ?_ (fun x hx => h x (List.mem_of_mem_drop hx))
  apply div_pos
  · apply List.sum_pos
    · exact fun x hx => h x (List.mem_of_mem_take hx)
    · have hl : (xs.take w).length = w := by
        rw [List.length_take]
        omega
      intro hemp
      rw [hemp] at hl
      simp at hl
      omega
  · exact_mod_cast Nat.lt_of_lt_of_le Nat.zero_lt_one hw

/-- On a strictly decreasing close series the RSI is exactly 0 as soon as it
is defined: the average gain is 0 and the average loss is positive. -/
theorem rsiChron_strict_anti (w : ℕ) (hw : 1 ≤ w) (cs : List ℚ)
    (hlen : w + 1 ≤ cs.length) (hdec : cs.Chain' (· > ·)) :
    rsiChron w cs = some 0 := by
  unfold rsiChron
  rw [if_pos ⟨hw, hlen⟩]
  dsimp only
  have hdlen : (deltasChron cs).length = cs.length - 1 := by
    unfold deltasChron
    rw [List.length_zipWith, List.length_tail]
    omega
  have hdneg := deltasChron_neg cs hdec
  have hg : wilderAvg w ((deltasChron cs).map (fun d => max d 0)) = 0 := by
    apply wilderAvg_zero
    intro x hx
    rcases List.mem_map.mp hx with ⟨d, hd, rfl⟩
    exact max_eq_right (le_of_lt (hdneg d hd))
  have hl : 0 < wilderAvg w ((deltasChron cs).map (fun d => max (-d) 0)) := by
    apply wilderAvg_pos w hw
    · rw [List.length_map, hdlen]
      omega
    · intro x hx
      rcases List.mem_map.mp hx with ⟨d, hd, rfl⟩
      have hd0 := hdneg d hd
      rw [max_eq_left (by linarith)]
      linarith
  rw [if_neg (ne_of_gt hl), hg]
  norm_num

/-- Extending the most-recent-first history by one bar matches appending the
close chronologically. -/
theorem mkBars_reverse_snoc (hs : List ℚ) (x : ℚ) :
    mkBar x :: (mkBars hs).reverse = (mkBars (hs ++ [x])).reverse := by
  unfold mkBars
  rw [List.map_append, List.reverse_append]
  rfl

/-- The RSI of a history built from a chronological close list is the
chronological RSI of that list. -/
theorem rsiOfHist_mkBars (w : ℕ) (hs : List ℚ) :
    rsiOfHist w ((mkBars hs).reverse) = rsiChron w hs := by
  unfold rsiOfHist mkBars
  rw [List.map_reverse, List.reverse_reverse, List.map_map]
  have hcomp : Bar.cl ∘ mkBar = id := rfl
  rw [hcomp, List.map_id]

/-- A strict chain on a list survives keeping only the first elements past a
cons cell. -/
theorem chain_append_snoc (hs : List ℚ) (x : ℚ) (cs : List ℚ)
    (h : (hs ++ x :: cs).Chain' (· > ·)) : (hs ++ [x]).Chain' (· > ·) := by
  have htake := List.Chain'.take h (hs.length + 1)
  have heq : (hs ++ x :: cs).take (hs.length + 1) = hs ++ [x] := by
    rw [List.take_append_eq_append_take]
    have h1 : hs.take (hs.length + 1) = hs := List.take_of_length_le (by omega)
    rw [h1]
    have h2 : hs.length + 1 - hs.length = 1 := by omega
    rw [h2]
    rfl
  rwa [heq] at htake

/-- RSIStrategy.next is a no-op while the RSI indicator is not ready. -/
theorem rsiNext_notReady (p : RSIParams) (c : ℚ) (pb : Bool) (s : RSIState)
    (H : List Bar) (ho : s.order = false) (h : rsiOfHist p.rsi_period H = none) :
    RSIStrategy.next p c pb s H = (s, [], []) := by
  unfold RSIStrategy.next
  rw [ho, h]
  rfl

/-- RSIStrategy.next buys one share when flat with RSI strictly below the
oversold threshold. -/
theorem rsiNext_flat_buy (p : RSIParams) (c : ℚ) (s : RSIState) (H : List Bar)
    (ho : s.order = false) (r : ℚ) (h : rsiOfHist p.rsi_period H = some r)
    (hr : r < p.oversold) :
    RSIStrategy.next p c false s H =
      ({ s with order := true }, [.buy 1], [.signalLog]) := by
  unfold RSIStrategy.next
  rw [ho, h]
  dsimp only
  rw [if_pos hr]
  rfl

/-- RSIStrategy.next is a no-op when flat and the RSI is not below the
oversold threshold. -/
theorem rsiNext_flat_hold (p : RSIParams) (c : ℚ) (s : RSIState) (H : List Bar)
    (ho : s.order = false) (r : ℚ) (h : rsiOfHist p.rsi_period H = some r)
    (hr : ¬(r < p.oversold)) :
    RSIStrategy.next p c false s H = (s, [], []) := by
  unfold RSIStrategy.next
  rw [ho, h]
  dsimp only
  rw [if_neg hr]
  rfl

/-- RSIStrategy.next is a no-op while holding when the RSI is not above the
overbought threshold. -/
theorem rsiNext_long_hold (p : RSIParams) (c : ℚ) (s : RSIState) (H : List Bar)
    (ho : s.order = false) (r : ℚ) (h : rsiOfHist p.rsi_period H = some r)
    (hr : ¬(r > p.overbought)) :
    RSIStrategy.next p c true s H = (s, [], []) := by
  unfold RSIStrategy.next
  rw [ho, h]
  dsimp only
  rw [if_neg hr]
  rfl

/-- Projection of the RSI strategy record to its translated next method. -/
theorem rsiStrategy_next (p : RSIParams) :
    (rsiStrategy p).next = RSIStrategy.next p := rfl

/-- One engine step from a state with no pending order only advances the
history and runs the strategy. -/
theorem engineStep_no_pending {σ : Type} (cfg : EngCfg) (S : Strategy σ)
    (c : ℚ) (pn : ℤ) (a : ℚ) (st : σ) (H : List Bar) (t : ℕ) (b : Bar) :
    engineStep cfg S ⟨c, pn, a, st, [], H, t⟩ b =
      (⟨c, pn, a, (S.next c (decide (pn ≠ 0)) st (b :: H)).1,
        (S.next c (decide (pn ≠ 0)) st (b :: H)).2.1, b :: H, t + 1⟩,
       ((S.next c (decide (pn ≠ 0)) st (b :: H)).2.1.map (fun i => (t, i)),
        c + (pn : ℚ) * b.cl, [],
        (S.next c (decide (pn ≠ 0)) st (b :: H)).2.2.map (fun l => (t, l)))) := rfl

/-- Execution of a one-share buy intent when the cost is covered by cash. -/
theorem fillOne_buy_one (cfg : EngCfg) (b : Bar) (c : ℚ) (pn : ℤ) (a : ℚ)
    (tr : List Trade)
    (hcost : b.op * (1 + cfg.slippage) * (1 + cfg.commission) ≤ c) :
    fillOne cfg b (c, pn, a, tr) (.buy 1) =
      (c - b.op * (1 + cfg.slippage) * ((1 : ℤ) : ℚ) * (1 + cfg.commission),
       pn + 1, b.op * (1 + cfg.slippage), tr) := by
  unfold fillOne
  dsimp only
  rw [if_pos]
  refine ⟨by norm_num, ?_⟩
  push_cast
  rw [mul_one]
  exact hcost

/-- One engine step of the RSI strategy from the state holding the filled buy:
the order completes (position becomes one share, notify clears the order
slot) and next() emits nothing since the RSI value 0 is not overbought. -/
theorem engineStep_rsi_fill (cfg : EngCfg) (w : ℕ) (ost ob : ℚ) (c a : ℚ)
    (H : List Bar) (t : ℕ) (b : Bar)
    (hcost : b.op * (1 + cfg.slippage) * (1 + cfg.commission) ≤ c)
    (hrsi : rsiOfHist w (b :: H) = some 0) (hob : ¬((0 : ℚ) > ob)) :
    engineStep cfg (rsiStrategy ⟨w, ost, ob⟩)
      ⟨c, 0, a, ⟨true, none, none⟩, [.buy 1], H, t⟩ b =
      (⟨c - b.op * (1 + cfg.slippage) * ((1 : ℤ) : ℚ) * (1 + cfg.commission), 1,
        b.op * (1 + cfg.slippage), ⟨false, none, none⟩, [], b :: H, t + 1⟩,
       ([], c - b.op * (1 + cfg.slippage) * ((1 : ℤ) : ℚ) * (1 + cfg.commission)
          + ((1 : ℤ) : ℚ) * b.cl, [], [])) := by
  unfold engineStep
  have hfold : [Intent.buy 1].foldl (fillOne cfg b) (c, (0 : ℤ), a, ([] : List Trade)) =
      (c - b.op * (1 + cfg.slippage) * ((1 : ℤ) : ℚ) * (1 + cfg.commission),
       (1 : ℤ), b.op * (1 + cfg.slippage), ([] : List Trade)) := by
    show fillOne cfg b (c, (0 : ℤ), a, ([] : List Trade)) (.buy 1) = _
    rw [fillOne_buy_one cfg b c 0 a [] hcost]
    norm_num
  dsimp only
  rw [hfold]
  dsimp only
  have hni : (if ([Intent.buy 1].isEmpty) = true then (⟨true, none, none⟩ : RSIState)
      else (rsiStrategy ⟨w, ost, ob⟩).notify ⟨true, none, none⟩) =
      (⟨false, none, none⟩ : RSIState) := rfl
  have hnext : RSIStrategy.next ⟨w, ost, ob⟩
      (c - b.op * (1 + cfg.slippage) * ((1 : ℤ) : ℚ) * (1 + cfg.commission))
      true ⟨false, none, none⟩ (b :: H) = (⟨false, none, none⟩, [], []) :=
    rsiNext_long_hold ⟨w, ost, ob⟩ _ ⟨false, none, none⟩ (b :: H) rfl 0 hrsi hob
  rw [show (decide ((1 : ℤ) ≠ 0)) = true from rfl, hni, rsiStrategy_next, hnext]
  rfl

/-- RSIStrategy.next sells one share while holding when the RSI is strictly
above the overbought threshold. -/
theorem rsiNext_long_sell (p : RSIParams) (c : ℚ) (s : RSIState) (H : List Bar)
    (ho : s.order = false) (r : ℚ) (h : rsiOfHist p.rsi_period H = some r)
    (hr : r > p.overbought) :
    RSIStrategy.next p c true s H =
      ({ s with order := true }, [.sell 1], [.signalLog]) := by
  unfold RSIStrategy.next
  rw [ho, h]
  dsimp only
  rw [if_pos hr]
  rfl

/-- RSI is undefined while fewer than w + 1 closes have been observed. -/
theorem rsiChron_short (w : ℕ) (cs : List ℚ) (h : cs.length < w + 1) :
    rsiChron w cs = none := by
  unfold rsiChron
  rw [if_neg]
  rintro ⟨-, h2⟩
  omega

/-- After the fill, over strictly falling remaining closes the long RSI
strategy (thresholds 30/70) never emits another intent. -/
theorem rsi_steady (cfg : EngCfg) (w : ℕ) (hw : 1 ≤ w) (pn : ℤ) (hpn : pn ≠ 0) :
    ∀ (cs hs : List ℚ) (c a : ℚ) (t : ℕ) (bp bc : Option ℚ),
    (hs ++ cs).Chain' (· > ·) → w + 1 ≤ hs.length →
    (simLoop cfg (rsiStrategy ⟨w, 30, 70⟩)
      ⟨c, pn, a, ⟨false, bp, bc⟩, [], (mkBars hs).reverse, t⟩ (mkBars cs)).intents = [] := by
  intro cs
  induction cs with
  | nil =>
      intro hs c a t bp bc hch hlen
      rfl
  | cons x cs ih =>
      intro hs c a t bp bc hch hlen
      have hrsi : rsiOfHist w ((mkBars (hs ++ [x])).reverse) = some 0 := by
        rw [rsiOfHist_mkBars]
        exact rsiChron_strict_anti w hw _
          (by rw [List.length_append]; simp; omega)
          (chain_append_snoc hs x cs hch)
      have hnext : RSIStrategy.next ⟨w, 30, 70⟩ c true ⟨false, bp, bc⟩
          ((mkBars (hs ++ [x])).reverse) = (⟨false, bp, bc⟩, [], []) :=
        rsiNext_long_hold ⟨w, 30, 70⟩ c ⟨false, bp, bc⟩ _ rfl 0 hrsi (by norm_num)
      rw [show mkBars (x :: cs) = mkBar x :: mkBars cs from rfl, simLoop_cons,
        engineStep_no_pending, decide_eq_true hpn, rsiStrategy_next,
        mkBars_reverse_snoc, hnext]
      dsimp only
      rw [List.map_nil, List.nil_append]
      exact ih (hs ++ [x]) c a (t + 1) bp bc
        (by rw [List.append_assoc]; exact hch)
        (by simp; omega)

/-- From the bar after the buy signal: the pending one-share order fills,
notify clears the slot, and no further intent is ever emitted over the
strictly falling remainder. -/
theorem rsi_fill_steady (cash0 : ℚ) (w : ℕ) (hw : 1 ≤ w) :
    ∀ (cs hs : List ℚ) (c a : ℚ) (t : ℕ),
    (hs ++ cs).Chain' (· > ·) → w + 1 ≤ hs.length →
    (∀ x ∈ cs, x * (1 + DEFAULT_SLIPPAGE) * (1 + DEFAULT_COMMISSION) ≤ c) →
    (simLoop (engineCfg cash0) (rsiStrategy ⟨w, 30, 70⟩)
      ⟨c, 0, a, ⟨true, none, none⟩, [.buy 1], (mkBars hs).reverse, t⟩
      (mkBars cs)).intents = []
  | [], _, _, _, _, _, _, _ => rfl
  | x :: cs, hs, c, a, t, hch, hlen, hcost => by
      have hrsi : rsiOfHist w (mkBar x :: (mkBars hs).reverse) = some 0 := by
        rw [mkBars_reverse_snoc, rsiOfHist_mkBars]
        exact rsiChron_strict_anti w hw _
          (by rw [List.length_append]; simp; omega)
          (chain_append_snoc hs x cs hch)
      have hcx : (mkBar x).op * (1 + (engineCfg cash0).slippage) *
          (1 + (engineCfg cash0).commission) ≤ c :=
        hcost x (List.mem_cons_self _ _)
      rw [show mkBars (x :: cs) = mkBar x :: mkBars cs from rfl, simLoop_cons,
        engineStep_rsi_fill (engineCfg cash0) w 30 70 c a _ t (mkBar x) hcx hrsi
          (by norm_num)]
      dsimp only
      rw [List.nil_append, mkBars_reverse_snoc]
      exact rsi_steady (engineCfg cash0) w hw 1 one_ne_zero cs (hs ++ [x]) _ _
        (t + 1) none none (by rw [List.append_assoc]; exact hch)
        (by simp; omega)

/-- Before the RSI is ready the flat strategy does nothing; on the first
ready bar (index w) of a strictly falling series it emits the single buy,
which then fills and is never followed by another intent. -/
theorem rsi_pre (cash0 : ℚ) (w : ℕ) (hw : 1 ≤ w) :
    ∀ (cs hs : List ℚ),
    hs.length ≤ w →
    (hs ++ cs).Chain' (· > ·) →
    w + 1 ≤ hs.length + cs.length →
    (∀ x ∈ cs, x * (1 + DEFAULT_SLIPPAGE) * (1 + DEFAULT_COMMISSION) ≤ cash0) →
    (simLoop (engineCfg cash0) (rsiStrategy ⟨w, 30, 70⟩)
      ⟨cash0, 0, 0, ⟨false, none, none⟩, [], (mkBars hs).reverse, hs.length⟩
      (mkBars cs)).intents = [(w, .buy 1)]
  | [], hs, hle, _, hlen, _ => by
      simp only [List.length_nil, Nat.add_zero] at hlen
      omega
  | x :: cs, hs, hle, hch, hlen, hcost => by
      rcases Nat.lt_or_ge hs.length w with hlt | hge
      · -- not ready yet: no intent on this bar
        have hrsi : rsiOfHist w ((mkBars (hs ++ [x])).reverse) = none := by
          rw [rsiOfHist_mkBars]
          exact rsiChron_short w _ (by rw [List.length_append]; simp; omega)
        have hnext : RSIStrategy.next ⟨w, 30, 70⟩ cash0 false ⟨false, none, none⟩
            ((mkBars (hs ++ [x])).reverse) = (⟨false, none, none⟩, [], []) :=
          rsiNext_notReady ⟨w, 30, 70⟩ cash0 false ⟨false, none, none⟩ _ rfl hrsi
        rw [show mkBars (x :: cs) = mkBar x :: mkBars cs from rfl, simLoop_cons,
          engineStep_no_pending, show (decide ((0 : ℤ) ≠ 0)) = false from rfl,
          rsiStrategy_next, mkBars_reverse_snoc, hnext]
        dsimp only
        rw [List.map_nil, List.nil_append]
        have := rsi_pre cash0 w hw cs (hs ++ [x])
          (by rw [List.length_append]; simp; omega)
          (by rw [List.append_assoc]; exact hch)
          (by rw [List.length_append]; simp at hlen ⊢; omega)
          (fun y hy => hcost y (List.mem_cons_of_mem _ hy))
        rw [show (hs ++ [x]).length = hs.length + 1 from by simp] at this
        exact this
      · -- first ready bar: the buy signal fires
        have hw' : hs.length = w := le_antisymm hle hge
        have hrsi : rsiOfHist w ((mkBars (hs ++ [x])).reverse) = some 0 := by
          rw [rsiOfHist_mkBars]
          exact rsiChron_strict_anti w hw _
            (by rw [List.length_append]; simp; omega)
            (chain_append_snoc hs x cs hch)
        have hnext : RSIStrategy.next ⟨w, 30, 70⟩ cash0 false ⟨false, none, none⟩
            ((mkBars (hs ++ [x])).reverse) =
              (⟨true, none, none⟩, [.buy 1], [.signalLog]) :=
          rsiNext_flat_buy ⟨w, 30, 70⟩ cash0 ⟨false, none, none⟩ _ rfl 0 hrsi
            (by norm_num)
        rw [show mkBars (x :: cs) = mkBar x :: mkBars cs from rfl, simLoop_cons,
          engineStep_no_pending, show (decide ((0 : ℤ) ≠ 0)) = false from rfl,
          rsiStrategy_next, mkBars_reverse_snoc, hnext]
        dsimp only
        have hrest := rsi_fill_steady cash0 w hw cs (hs ++ [x]) cash0 0
          (hs.length + 1)
          (by rw [List.append_assoc]; exact hch)
          (by simp; omega)
          (fun y hy => hcost y (List.mem_cons_of_mem _ hy))
        rw [hrest, hw']
        rfl

/-- C7: RSIStrategy uses strict threshold comparisons on every bar — flat it
buys exactly when RSI < oversold, long it sells exactly when RSI >
overbought — and on any strictly monotonically falling close series (with
the defaults 30/70, enough cash for the one-share fill, and at least w + 1
bars) the whole run emits exactly one buy intent, at bar index w, the
first bar on which the RSI is defined (value 0 < 30), and none before. -/
theorem rsi_strict_thresholds_single_buy :
    (∀ (p : RSIParams) (cash : ℚ) (s : RSIState) (hist : List Bar) (r : ℚ),
      s.order = false → rsiOfHist p.rsi_period hist = some r →
      (((RSIStrategy.next p cash false s hist).2.1 = [.buy 1]) ↔ r < p.oversold) ∧
      (((RSIStrategy.next p cash true s hist).2.1 = [.sell 1]) ↔ r > p.overbought)) ∧
    (∀ (w : ℕ) (closes : List ℚ) (cash0 : ℚ),
      1 ≤ w → w + 1 ≤ closes.length → closes.Chain' (· > ·) →
      (∀ x ∈ closes, x * (1 + DEFAULT_SLIPPAGE) * (1 + DEFAULT_COMMISSION) ≤ cash0) →
      rsiChron w (closes.take w) = none ∧
      rsiChron w (closes.take (w + 1)) = some 0 ∧
      (simulate (engineCfg cash0) (rsiStrategy ⟨w, 30, 70⟩) (mkBars closes)).intents
        = [(w, .buy 1)]) := by
  constructor
  · intro p cash s hist r ho hr
    constructor
    · by_cases hlt : r < p.oversold
      · rw [rsiNext_flat_buy p cash s hist ho r hr hlt]
        simp [hlt]
      · rw [rsiNext_flat_hold p cash s hist ho r hr hlt]
        simp [hlt]
    · by_cases hgt : r > p.overbought
      · rw [rsiNext_long_sell p cash s hist ho r hr hgt]
        simp [hgt]
      · rw [rsiNext_long_hold p cash s hist ho r hr hgt]
        simp [hgt]
  · intro w closes cash0 hw hlen hdec hcost
    refine ⟨?_, ?_, ?_⟩
    · exact rsiChron_short w _ (by rw [List.length_take]; omega)
    · exact rsiChron_strict_anti w hw _ (by rw [List.length_take]; omega)
        (List.Chain'.take hdec _)
    · have hrun := rsi_pre cash0 w hw closes [] (by simp) hdec
        (by simpa using hlen) hcost
      exact hrun

/-- Witness for rsi_strict_thresholds_single_buy: with period 2 the falling
series 10,9,8,7,6 yields RSI 0 and exactly the one buy intent at bar 2. -/
theorem rsi_strict_thresholds_single_buy_witness :
    ((RSIStrategy.next ⟨2, 30, 70⟩ 100 false ⟨false, none, none⟩
        ((mkBars [10, 9, 8]).reverse)).2.1 = [.buy 1] ↔ (0 : ℚ) < 30) ∧
    (simulate (engineCfg 1000000) (rsiStrategy ⟨2, 30, 70⟩)
      (mkBars [10, 9, 8, 7, 6])).intents = [(2, .buy 1)] :=
  ⟨(rsi_strict_thresholds_single_buy.1 ⟨2, 30, 70⟩ 100 ⟨false, none, none⟩
      ((mkBars [10, 9, 8]).reverse) 0 rfl (by decide!)).1,
   (rsi_strict_thresholds_single_buy.2 2 [10, 9, 8, 7, 6] 1000000 (by norm_num)
      (by norm_num) (by norm_num [List.chain'_cons, List.chain'_singleton])
      (by decide!)).2.2⟩

end Douyinshare
